import Mathlib

/-!
Verification of the terracotta driver base-class contract
(`terracotta/drivers/base_classes.py`).

The source file defines the abstract interface of metadata stores
(`MetaStore`) and raster stores (`RasterStore`).  The concrete pieces of
code in the file — the `requires_connection` decorator, the
`_normalize_path` class method and the `_RESERVED_KEYS` constant — are
embedded directly.  The abstract operations (`create`, `get_keys`,
`get_datasets`, `get_metadata`, `insert`, `delete`, `get_raster_tile`,
`compute_metadata`) have no body in the source; they are modelled from
the specification's contract for them, as documented on each definition.
-/

namespace Terracotta

/-- Event alphabet for traces of Python computations: entering a
connection context (with its `verify` flag), leaving it, and opaque
actions performed by the wrapped operation. -/
inductive Event where
  | connEnter (verify : Bool)
  | connExit
  | action (name : String)
deriving DecidableEq, Repr

/-- Exceptions raised by Python computations, identified by a message. -/
inductive PyExc where
  | exc (msg : String)
deriving DecidableEq, Repr

/-- Result of running a Python computation: the trace of events it
emitted, and its outcome — a returned value or a raised exception. -/
structure PyResult (β : Type) where
  trace : List Event
  outcome : Except PyExc β

/-- Semantics of `with self.connect(verify=verify): body` in
`requires_connection.inner`: the connection context is entered before
the body runs and exited after it, whether the body returns or raises
(a `with` statement runs `__exit__` on both paths), and the outcome of
the body is the outcome of the whole statement.  The abstract
`MetaStore.connect` context manager is modelled by the
`connEnter`/`connExit` events it contributes to the trace. -/
def withConnection {β : Type} (verify : Bool) (body : PyResult β) : PyResult β :=
  ⟨Event.connEnter verify :: body.trace ++ [Event.connExit], body.outcome⟩

/-- Result of applying the `requires_connection` decorator: either the
wrapped function (when a function was supplied), or — mirroring
`functools.partial(requires_connection, verify=verify)` — a pending
application that remembers only the `verify` flag. -/
inductive DecoratorResult (Args β : Type) where
  | wrapped (g : Args → PyResult β)
  | pending (verify : Bool)

/-- Embedding of the `requires_connection` decorator
(base_classes.py lines 19-32).  `fn = none` models the Python call with
`fun=None`, which returns `functools.partial(requires_connection,
verify=verify)`; otherwise the function is wrapped so that it runs
inside `with self.connect(verify=verify)`.  The `verify` parameter
defaults to `true`, as in the source. -/
def requires_connection {Args β : Type}
    (fn : Option (Args → PyResult β)) (verify : Bool := true) :
    DecoratorResult Args β :=
  match fn with
  | none => DecoratorResult.pending verify
  | some f => DecoratorResult.wrapped (fun a => withConnection verify (f a))

/-- Applying the value returned by `requires_connection` to a function:
a pending `functools.partial` calls `requires_connection` again with the
stored `verify` flag; a wrapped function is left unchanged (it is not a
decorator any more). -/
def applyDecorator {Args β : Type}
    (d : DecoratorResult Args β) (f : Args → PyResult β) :
    DecoratorResult Args β :=
  match d with
  | DecoratorResult.pending v => requires_connection (some f) v
  | DecoratorResult.wrapped g => DecoratorResult.wrapped g

/-- Embedding of `MetaStore._normalize_path`
(base_classes.py lines 58-61): the base implementation returns the path
unchanged. -/
def _normalize_path (path : String) : String :=
  path

/-- Embedding of `MetaStore._RESERVED_KEYS` (base_classes.py line 40). -/
def _RESERVED_KEYS : List String := ["limit", "page"]

/-- Errors of the driver contract (spec section 7): schema violations at
creation, key mismatches on lookup or insert, unknown filter keys,
version mismatches at verified connect, and malformed tile requests. -/
inductive TcError where
  | invalidKeyError
  | keyMismatchError
  | unknownKeyError
  | incompatibleVersionError
  | invalidTileSizeError
  | tileOutOfBoundsError
deriving DecidableEq, Repr

/-- Modelled from the spec: the raw raster content reachable at a
dataset's storage locator, as seen by the metadata computer — the list
of valid (non-masked) sample values and the raster's geographic extent
`(west, south, east, north)` in longitude/latitude. -/
structure Raster where
  samples : List ℚ
  bounds : ℚ × ℚ × ℚ × ℚ
deriving DecidableEq, Repr

/-- Minimum of a list of samples (the first sample for a singleton). -/
def listMin : List ℚ → ℚ
  | [] => 0
  | x :: xs => xs.foldl min x

/-- Maximum of a list of samples (the first sample for a singleton). -/
def listMax : List ℚ → ℚ
  | [] => 0
  | x :: xs => xs.foldl max x

/-- Nearest-rank index of the `p`-th percentile in a sorted list of `n`
samples: `⌈p·n/100⌉ - 1`. -/
def pctIndex (n p : ℕ) : ℕ :=
  (p * n + 99) / 100 - 1

/-- Modelled from the spec: the metadata record computed at insertion
time (spec sections 3 and 4.3) — `range` as exact min/max over valid
samples, `bounds` as the raster's geographic extent, `percentiles` as
the 99 values from the 1st through the 99th percentile of the valid
samples, `mean` over valid samples, and the caller-supplied client
metadata.  The `convex_hull` polygon and `stdev` are not modelled: no
claim constrains them and square roots leave the rational model. -/
structure MetadataRecord where
  range_min : ℚ
  range_max : ℚ
  bounds : ℚ × ℚ × ℚ × ℚ
  percentiles : List ℚ
  mean : ℚ
  metadata : List (String × String)
deriving DecidableEq, Repr

/-- Modelled from the spec: `RasterStore.compute_metadata`
(base_classes.py lines 208-213 declares it abstract).  Deterministically
derives the metadata record from the raw raster content, per spec
section 4.3. -/
def compute_metadata (r : Raster) (extra_metadata : List (String × String)) :
    MetadataRecord :=
  { range_min := listMin r.samples
    range_max := listMax r.samples
    bounds := r.bounds
    percentiles :=
      (List.range 99).map
        (fun i => (r.samples.insertionSort (· ≤ ·)).getD
          (pctIndex r.samples.length (i + 1)) 0)
    mean := r.samples.sum / (r.samples.length : ℚ)
    metadata := extra_metadata }

/-- Modelled from the spec: one catalog record (spec section 3,
"Dataset Entry") — a key-tuple, a storage locator and the metadata
computed for the dataset. -/
structure DatasetEntry where
  keyTuple : List String
  locator : String
  metadata : MetadataRecord
deriving DecidableEq, Repr

/-- Modelled from the spec: the state of an initialized catalog — the
ordered key schema fixed at creation, the supplied key descriptions, and
the dataset entries. -/
structure Catalog where
  keyNames : List String
  keyDescriptions : List (String × String)
  entries : List DatasetEntry
deriving DecidableEq, Repr

/-- Description recorded for a key: the matching entry of the supplied
description mapping, or the empty string for undescribed keys
(spec section 4.1). -/
def descriptionFor (descs : List (String × String)) (k : String) : String :=
  (((descs.find? (fun d => d.1 == k)).map (fun d => d.2)).getD "")

namespace MetaStore

/-- Modelled from the spec: `MetaStore.create` (base_classes.py lines
63-67 declares it abstract).  Initializes an empty catalog bound to the
key schema; fails with an invalid-key error when any key name is
reserved, duplicated or empty (spec sections 3 and 4.1). -/
def create (keys : List String) (key_descriptions : List (String × String)) :
    Except TcError Catalog :=
  if keys.any (fun k => _RESERVED_KEYS.contains k) then
    Except.error TcError.invalidKeyError
  else if ¬ keys.Nodup then
    Except.error TcError.invalidKeyError
  else if keys.any (fun k => k == "") then
    Except.error TcError.invalidKeyError
  else
    Except.ok ⟨keys, key_descriptions, []⟩

/-- Modelled from the spec: `MetaStore.get_keys` (base_classes.py lines
98-108 declares it abstract).  Exposes the key schema in definition
order as an ordered `{key_name: description}` mapping; undescribed keys
map to the empty string. -/
def get_keys (c : Catalog) : List (String × String) :=
  c.keyNames.map (fun k => (k, descriptionFor c.keyDescriptions k))

/-- Modelled from the spec: `MetaStore.insert` (base_classes.py lines
142-154 declares it abstract).  Registers or overwrites the entry for
the given key-tuple, computing its metadata from the raster content
reachable at `path` (passed here explicitly as `r`); fails with
`KeyMismatchError` when the key count does not match the schema. -/
def insert (c : Catalog) (keys : List String) (path : String) (r : Raster)
    (extra_metadata : List (String × String)) : Except TcError Catalog :=
  if keys.length = c.keyNames.length then
    Except.ok
      { c with
        entries :=
          ⟨keys, path, compute_metadata r extra_metadata⟩ ::
            c.entries.filter (fun e => ¬ (e.keyTuple == keys)) }
  else
    Except.error TcError.keyMismatchError

/-- Modelled from the spec: `MetaStore.delete` (base_classes.py lines
156-166 declares it abstract).  Removes the entry with the given
key-tuple; idempotent — deleting a non-existent entry is not an error
(spec section 4.2). -/
def delete (c : Catalog) (keys : List String) : Catalog :=
  { c with entries := c.entries.filter (fun e => ¬ (e.keyTuple == keys)) }

/-- Modelled from the spec: `MetaStore.get_metadata` (base_classes.py
lines 117-140 declares it abstract).  Returns the stored metadata for
the given key-tuple, or `none` when no entry matches — never an error
for "not found". -/
def get_metadata (c : Catalog) (keys : List String) : Option MetadataRecord :=
  (c.entries.find? (fun e => e.keyTuple == keys)).map (fun e => e.metadata)

/-- Value an entry's key-tuple holds for a named key: the component at
the key's position in the schema (spec: position maps 1:1 to key-schema
order). -/
def entryValue (c : Catalog) (kt : List String) (name : String) : Option String :=
  match c.keyNames.findIdx? (fun k => k == name) with
  | some i => kt[i]?
  | none => none

/-- When an entry satisfies a `where` constraint list: for every
constrained key name, the entry's value for that key is one of the
accepted values (logical OR within a key, logical AND across keys). -/
def satisfiesWhere (c : Catalog) (kt : List String)
    (whereQ : List (String × List String)) : Bool :=
  whereQ.all (fun q =>
    match entryValue c kt q.1 with
    | some v => q.2.contains v
    | none => false)

/-- Canonical ordering of dataset entries: lexicographic comparison of
their key-tuples. -/
def keyTupleLE (a b : DatasetEntry) : Prop :=
  a.keyTuple ≤ b.keyTuple

instance : DecidableRel keyTupleLE :=
  fun a b => inferInstanceAs (Decidable (a.keyTuple ≤ b.keyTuple))

instance : IsTotal DatasetEntry keyTupleLE :=
  ⟨fun a b => le_total a.keyTuple b.keyTuple⟩

instance : IsTrans DatasetEntry keyTupleLE :=
  ⟨fun _ _ _ => le_trans⟩

/-- Entries matching a `where` constraint list, in the canonical
ordering by key-tuple (lexicographic on the key values). -/
def sortedEntries (c : Catalog) (whereQ : List (String × List String)) :
    List DatasetEntry :=
  (c.entries.filter (fun e => satisfiesWhere c e.keyTuple whereQ)).insertionSort
    keyTupleLE

/-- Modelled from the spec: `MetaStore.get_datasets` (base_classes.py
lines 110-115 declares it abstract).  Enumerates the entries matching
all `where` constraints, in a canonical ordering by key-tuple, and
applies stable pagination (`page`/`limit`); a constraint on an unknown
key name fails with `UnknownKeyError` (spec section 4.2). -/
def get_datasets (c : Catalog) (whereQ : List (String × List String))
    (page : ℕ) (limit : Option ℕ) :
    Except TcError (List (List String × String)) :=
  if whereQ.all (fun q => c.keyNames.contains q.1) then
    let paged :=
      match limit with
      | none => sortedEntries c whereQ
      | some l => ((sortedEntries c whereQ).drop (page * l)).take l
    Except.ok (paged.map (fun e => (e.keyTuple, e.locator)))
  else
    Except.error TcError.unknownKeyError

end MetaStore

/-- Modelled from the spec: the raw raster as seen by the tile engine —
a grid of pixel values (`none` marks nodata pixels outside the valid
data coverage) over a geographic extent `(west, south, east, north)`. -/
structure TileRaster where
  rows : List (List (Option ℚ))
  bounds : ℚ × ℚ × ℚ × ℚ
deriving DecidableEq, Repr

/-- Result of a tile request: a rectangular array of samples with a
validity mask — `none` entries are the masked (invalid) pixels. -/
structure MaskedArray where
  rows : List (List (Option ℚ))
deriving DecidableEq, Repr

/-- Deferred handle produced by an asynchronous tile request; awaiting
the handle yields the worker's result. -/
structure Future (α : Type) where
  result : α
deriving DecidableEq, Repr

/-- Return value of `get_raster_tile`: the immediate result in
synchronous mode, a deferred handle in asynchronous mode. -/
inductive TileHandle where
  | immediate (result : Except TcError MaskedArray)
  | deferred (future : Future (Except TcError MaskedArray))
deriving Repr

/-- Awaiting a tile request's result: an immediate result is itself,
a deferred handle is awaited. -/
def awaitTile : TileHandle → Except TcError MaskedArray
  | TileHandle.immediate r => r
  | TileHandle.deferred f => f.result

namespace RasterStore

/-- Pixel of the source raster grid at integer indices, `none` when the
indices fall outside the grid or the pixel is nodata. -/
def pixelAt (r : TileRaster) (row col : ℤ) : Option ℚ :=
  if 0 ≤ row ∧ 0 ≤ col then
    ((r.rows[row.toNat]?).bind (fun rowVals => rowVals[col.toNat]?)).join
  else
    none

/-- Sample of the output tile at output pixel `(i, j)`: the pixel
center's geographic position inside the requested bounds is mapped to a
source grid index; pixels falling outside the source raster's extent or
outside its valid-data region are masked (`none`).  With
`preserve_values` the nearest source sample is returned unchanged;
otherwise the nearest sample is smoothed with its valid right/down
neighbors (a simple smooth interpolation). -/
def samplePixel (r : TileRaster) (b : ℚ × ℚ × ℚ × ℚ) (h w : ℕ) (i j : ℕ)
    (preserve_values : Bool) : Option ℚ :=
  if h = 0 ∨ w = 0 then none else
  let x : ℚ := b.1 + ((j : ℚ) + 1/2) * (b.2.2.1 - b.1) / (w : ℚ)
  let y : ℚ := b.2.2.2 - ((i : ℚ) + 1/2) * (b.2.2.2 - b.2.1) / (h : ℚ)
  let rb := r.bounds
  if rb.1 < rb.2.2.1 ∧ rb.2.1 < rb.2.2.2 then
    let ncols : ℕ := (r.rows.headD []).length
    let nrows : ℕ := r.rows.length
    let col : ℤ := ⌊(x - rb.1) / (rb.2.2.1 - rb.1) * (ncols : ℚ)⌋
    let row : ℤ := ⌊(rb.2.2.2 - y) / (rb.2.2.2 - rb.2.1) * (nrows : ℚ)⌋
    if preserve_values then
      pixelAt r row col
    else
      match pixelAt r row col with
      | none => none
      | some v =>
        let vals := v ::
          [pixelAt r row (col + 1), pixelAt r (row + 1) col,
            pixelAt r (row + 1) (col + 1)].filterMap id
        some (vals.sum / (vals.length : ℚ))
  else
    none

/-- Synchronous core of `get_raster_tile`: validates the tile size
before any I/O (the store is not consulted on the failure path), then
resolves the locator and resamples the raster over the requested bounds
(the whole dataset when no bounds are given) into an array of exactly
the requested dimensions. -/
def get_raster_tile_impl (store : String → TileRaster) (path : String)
    (tile_bounds : Option (ℚ × ℚ × ℚ × ℚ)) (tile_size : List ℕ)
    (preserve_values : Bool) : Except TcError MaskedArray :=
  if tile_size.length = 2 then
    let h := tile_size.getD 0 0
    let w := tile_size.getD 1 0
    let r := store path
    let b := tile_bounds.getD r.bounds
    Except.ok
      ⟨(List.range h).map (fun i =>
        (List.range w).map (fun j => samplePixel r b h w i j preserve_values))⟩
  else
    Except.error TcError.invalidTileSizeError

/-- Modelled from the spec: `RasterStore.get_raster_tile`
(base_classes.py lines 177-206 declares it abstract).  Loads a raster
tile with the given locator, bounds, output size and value-preservation
flag; with `asynchronous = true` it returns a deferred handle whose
awaited result is the same computation's result, executed on a worker
(spec sections 4.4 and 5). -/
def get_raster_tile (store : String → TileRaster) (path : String)
    (tile_bounds : Option (ℚ × ℚ × ℚ × ℚ))
    (tile_size : List ℕ := [256, 256])
    (preserve_values : Bool := false) (asynchronous : Bool := false) :
    TileHandle :=
  if asynchronous then
    TileHandle.deferred
      ⟨get_raster_tile_impl store path tile_bounds tile_size preserve_values⟩
  else
    TileHandle.immediate
      (get_raster_tile_impl store path tile_bounds tile_size preserve_values)

end RasterStore

end Terracotta

namespace Terracotta

/-- C1: every operation wrapped with `requires_connection` runs inside
the connection context — the context is entered before the operation and
exited after it, whether the operation returns or raises — and the
wrapped call's outcome is exactly the underlying operation's outcome. -/
theorem requires_connection_runs_inside_connection
    {Args β : Type} (verify : Bool) (f : Args → PyResult β) (a : Args) :
    ∃ g, requires_connection (some f) verify = DecoratorResult.wrapped g ∧
      (g a).outcome = (f a).outcome ∧
      (g a).trace = Event.connEnter verify :: (f a).trace ++ [Event.connExit] := by
  refine ⟨fun a => withConnection verify (f a), rfl, rfl, rfl⟩

/-- C9: the base `MetaStore._normalize_path` is the identity, hence
idempotent, so two paths are cache-identical exactly when they are equal
as strings. -/
theorem normalize_path_identity (p : String) :
    _normalize_path p = p ∧
      _normalize_path (_normalize_path p) = _normalize_path p ∧
      ∀ q : String, (_normalize_path p = _normalize_path q ↔ p = q) := by
  exact ⟨rfl, rfl, fun q => Iff.rfl⟩

/-- C10: `requires_connection` verifies by default — wrapping a function
with no `verify` argument equals wrapping it with `verify = true`;
applying the decorator with only the keyword argument
(`requires_connection(verify=v)` followed by application to `f`) equals
`requires_connection(f, verify=v)`; and a connection opened around an
operation wrapped with the defaults performs verification (the trace
starts with `connEnter true`). -/
theorem requires_connection_default_verify
    {Args β : Type} (f : Args → PyResult β) (v : Bool) :
    requires_connection (some f) = requires_connection (some f) true ∧
      applyDecorator (requires_connection (none : Option (Args → PyResult β)) v) f
        = requires_connection (some f) v ∧
      ∀ a, ∃ g, requires_connection (some f) = DecoratorResult.wrapped g ∧
        (g a).trace.head? = some (Event.connEnter true) := by
  refine ⟨rfl, rfl, fun a => ⟨fun a => withConnection true (f a), rfl, rfl⟩⟩

/-- C6: the awaited result of an asynchronous `get_raster_tile` call
equals the result of the synchronous call with identical arguments
(the synchronous call returns its result immediately). -/
theorem get_raster_tile_async_equiv (store : String → TileRaster)
    (path : String) (tile_bounds : Option (ℚ × ℚ × ℚ × ℚ))
    (tile_size : List ℕ) (preserve_values : Bool) :
    awaitTile (RasterStore.get_raster_tile store path tile_bounds tile_size
        preserve_values true)
      = awaitTile (RasterStore.get_raster_tile store path tile_bounds tile_size
        preserve_values false) ∧
    RasterStore.get_raster_tile store path tile_bounds tile_size
        preserve_values false
      = TileHandle.immediate
          (awaitTile (RasterStore.get_raster_tile store path tile_bounds
            tile_size preserve_values false)) := by
  exact ⟨rfl, rfl⟩

/-- C7: a `get_raster_tile` call with a tile size that is not exactly
two-dimensional fails with `InvalidTileSizeError` (for every store, so
before any I/O); with a two-dimensional tile size the returned (or
awaited) masked array has dimensions exactly equal to the tile size. -/
theorem get_raster_tile_size_contract (store : String → TileRaster)
    (path : String) (tile_bounds : Option (ℚ × ℚ × ℚ × ℚ))
    (tile_size : List ℕ) (preserve_values asynchronous : Bool) :
    (tile_size.length ≠ 2 →
      awaitTile (RasterStore.get_raster_tile store path tile_bounds tile_size
          preserve_values asynchronous)
        = Except.error TcError.invalidTileSizeError) ∧
    (tile_size.length = 2 →
      ∃ arr, awaitTile (RasterStore.get_raster_tile store path tile_bounds
          tile_size preserve_values asynchronous) = Except.ok arr ∧
        arr.rows.length = tile_size.getD 0 0 ∧
        ∀ row ∈ arr.rows, row.length = tile_size.getD 1 0) := by
  have himpl : awaitTile (RasterStore.get_raster_tile store path tile_bounds
      tile_size preserve_values asynchronous)
      = RasterStore.get_raster_tile_impl store path tile_bounds tile_size
        preserve_values := by
    cases asynchronous <;> rfl
  constructor
  · intro hne
    rw [himpl, RasterStore.get_raster_tile_impl, if_neg hne]
  · intro h2
    rw [himpl, RasterStore.get_raster_tile_impl, if_pos h2]
    refine ⟨_, rfl, ?_, ?_⟩
    · simp
    · intro row hrow
      simp only [List.mem_map] at hrow
      obtain ⟨i, _, rfl⟩ := hrow
      simp

/-- C5: catalog creation fails with an invalid-key error when any key
name equals a reserved word (`limit` or `page`), and succeeds for every
key-name sequence disjoint from the reserved words with no duplicates
and no empty names, after which `get_keys` returns exactly those names
in the same order with their matching descriptions (the empty string
for undescribed keys). -/
theorem create_reserved_keys_contract :
    (∀ (keys : List String) (descs : List (String × String)),
      (∃ k ∈ keys, k ∈ _RESERVED_KEYS) →
        MetaStore.create keys descs = Except.error TcError.invalidKeyError) ∧
    (∀ (keys : List String) (descs : List (String × String)),
      (∀ k ∈ keys, k ∉ _RESERVED_KEYS) → keys.Nodup → (∀ k ∈ keys, k ≠ "") →
        ∃ c, MetaStore.create keys descs = Except.ok c ∧
          MetaStore.get_keys c = keys.map (fun k => (k, descriptionFor descs k))) := by
  constructor
  · intro keys descs ⟨k, hk, hres⟩
    rw [MetaStore.create, if_pos]
    rw [List.any_eq_true]
    exact ⟨k, hk, by simpa using hres⟩
  · intro keys descs hres hnd hne
    refine ⟨⟨keys, descs, []⟩, ?_, rfl⟩
    have h1 : ¬ ((keys.any fun k => _RESERVED_KEYS.contains k) = true) := by
      simp only [List.any_eq_true, not_exists, not_and]
      intro k hk
      simpa using hres k hk
    have h2 : ¬ ¬ keys.Nodup := by simpa using hnd
    have h3 : ¬ ((keys.any fun k => k == "") = true) := by
      simp only [List.any_eq_true, not_exists, not_and]
      intro k hk
      simpa using hne k hk
    rw [MetaStore.create, if_neg h1, if_neg h2, if_neg h3]

/-- C4: inserting a dataset and then deleting it leaves a state where
`get_metadata` returns `None` for its key-tuple (not an error) and the
key-tuple does not appear among the key-tuples enumerated by
`get_datasets()`. -/
theorem insert_delete_roundtrip (c : Catalog) (keys : List String)
    (path : String) (r : Raster) (extra : List (String × String))
    (hk : keys.length = c.keyNames.length) :
    ∃ c', MetaStore.insert c keys path r extra = Except.ok c' ∧
      MetaStore.get_metadata (MetaStore.delete c' keys) keys = none ∧
      ∃ res, MetaStore.get_datasets (MetaStore.delete c' keys) [] 0 none
          = Except.ok res ∧
        ∀ loc, (keys, loc) ∉ res := by
  refine ⟨_, by rw [MetaStore.insert, if_pos hk], ?_, ?_⟩
  · rw [MetaStore.get_metadata]
    rw [List.find?_eq_none.mpr, Option.map_none']
    intro e he
    simp only [MetaStore.delete, List.mem_filter] at he
    simpa using he.2
  · refine ⟨_, rfl, ?_⟩
    intro loc hmem
    simp only [List.mem_map] at hmem
    obtain ⟨e, he, hproj⟩ := hmem
    rw [MetaStore.sortedEntries, List.mem_insertionSort, List.mem_filter] at he
    have he' := he.1
    simp only [MetaStore.delete, List.mem_filter] at he'
    have : e.keyTuple = keys := congrArg Prod.fst hproj
    simp [this] at he'

/-- Computation of `get_datasets` without pagination, under a valid
`where` filter: the full canonical enumeration. -/
lemma get_datasets_none_eq (c : Catalog)
    (whereQ : List (String × List String)) (page : ℕ)
    (hg : (whereQ.all fun q => c.keyNames.contains q.1) = true) :
    MetaStore.get_datasets c whereQ page none
      = Except.ok ((MetaStore.sortedEntries c whereQ).map
          (fun e => (e.keyTuple, e.locator))) := by
  rw [MetaStore.get_datasets.eq_def, if_pos hg]

/-- Computation of `get_datasets` with pagination, under a valid
`where` filter: the requested slice of the canonical enumeration. -/
lemma get_datasets_some_eq (c : Catalog)
    (whereQ : List (String × List String)) (page l : ℕ)
    (hg : (whereQ.all fun q => c.keyNames.contains q.1) = true) :
    MetaStore.get_datasets c whereQ page (some l)
      = Except.ok ((((MetaStore.sortedEntries c whereQ).drop (page * l)).take l).map
          (fun e => (e.keyTuple, e.locator))) := by
  rw [MetaStore.get_datasets.eq_def, if_pos hg]

/-- A successful `get_datasets` call implies every constrained key name
is a schema key. -/
lemma get_datasets_ok_guard (c : Catalog)
    (whereQ : List (String × List String)) (page : ℕ) (limit : Option ℕ)
    (res : List (List String × String))
    (h : MetaStore.get_datasets c whereQ page limit = Except.ok res) :
    (whereQ.all fun q => c.keyNames.contains q.1) = true := by
  by_cases hg : (whereQ.all fun q => c.keyNames.contains q.1) = true
  · exact hg
  · rw [MetaStore.get_datasets.eq_def, if_neg hg] at h
    exact absurd h (by simp)

/-- Decoding of a single `where` constraint: the Boolean test holds
exactly when the entry has some value for the constrained key and that
value is one of the accepted values. -/
lemma whereConstraint_iff (o : Option String) (vs : List String) :
    (match o with
      | some v => vs.contains v
      | none => false) = true ↔ ∃ v, o = some v ∧ v ∈ vs := by
  cases o <;> simp

/-- Decoding of `satisfiesWhere`: an entry satisfies a `where`
constraint list exactly when, for every constraint, its value for the
constrained key is one of the accepted values. -/
lemma satisfiesWhere_iff (c : Catalog) (kt : List String)
    (whereQ : List (String × List String)) :
    MetaStore.satisfiesWhere c kt whereQ = true ↔
      ∀ q ∈ whereQ, ∃ v, MetaStore.entryValue c kt q.1 = some v ∧ v ∈ q.2 := by
  rw [MetaStore.satisfiesWhere, List.all_eq_true]
  constructor
  · intro h q hq
    exact (whereConstraint_iff _ _).mp (h q hq)
  · intro h q hq
    exact (whereConstraint_iff _ _).mpr (h q hq)

/-- C8: with a fixed `where` filter, `get_datasets` returns exactly the
entries whose value for each constrained key is one of that key's
accepted values — logical OR within a key, logical AND across the
constrained keys. -/
theorem get_datasets_where_semantics (c : Catalog)
    (whereQ : List (String × List String))
    (res : List (List String × String))
    (h : MetaStore.get_datasets c whereQ 0 none = Except.ok res)
    (kt : List String) (loc : String) :
    (kt, loc) ∈ res ↔
      ∃ e ∈ c.entries, e.keyTuple = kt ∧ e.locator = loc ∧
        ∀ q ∈ whereQ, ∃ v, MetaStore.entryValue c kt q.1 = some v ∧ v ∈ q.2 := by
  have hg := get_datasets_ok_guard c whereQ 0 none res h
  rw [get_datasets_none_eq c whereQ 0 hg] at h
  obtain rfl : _ = res := Except.ok.inj h
  rw [MetaStore.sortedEntries]
  simp only [List.mem_map, List.mem_insertionSort, List.mem_filter]
  constructor
  · intro ⟨e, ⟨he, hsat⟩, hproj⟩
    have hkt : e.keyTuple = kt := congrArg Prod.fst hproj
    have hloc : e.locator = loc := congrArg Prod.snd hproj
    refine ⟨e, he, hkt, hloc, ?_⟩
    rw [← hkt]
    exact (satisfiesWhere_iff c e.keyTuple whereQ).mp hsat
  · intro ⟨e, he, hkt, hloc, hq⟩
    refine ⟨e, ⟨he, ?_⟩, by rw [hkt, hloc]⟩
    rw [satisfiesWhere_iff, hkt]
    exact hq

/-- Folding `min` over a list never exceeds the initial accumulator. -/
lemma foldl_min_le_init (xs : List ℚ) (a : ℚ) : xs.foldl min a ≤ a := by
  induction xs generalizing a with
  | nil => exact le_refl a
  | cons x xs ih => exact le_trans (ih (min a x)) (min_le_left a x)

/-- Folding `min` over a list is a lower bound of its members. -/
lemma foldl_min_le_mem (xs : List ℚ) (a : ℚ) :
    ∀ x ∈ xs, xs.foldl min a ≤ x := by
  induction xs generalizing a with
  | nil => intro x hx; cases hx
  | cons y ys ih =>
    intro x hx
    rcases List.mem_cons.mp hx with rfl | hx'
    · exact le_trans (foldl_min_le_init ys (min a x)) (min_le_right a x)
    · exact ih (min a y) x hx'

/-- Folding `max` over a list is at least the initial accumulator. -/
lemma init_le_foldl_max (xs : List ℚ) (a : ℚ) : a ≤ xs.foldl max a := by
  induction xs generalizing a with
  | nil => exact le_refl a
  | cons x xs ih => exact le_trans (le_max_left a x) (ih (max a x))

/-- Folding `max` over a list is an upper bound of its members. -/
lemma mem_le_foldl_max (xs : List ℚ) (a : ℚ) :
    ∀ x ∈ xs, x ≤ xs.foldl max a := by
  induction xs generalizing a with
  | nil => intro x hx; cases hx
  | cons y ys ih =>
    intro x hx
    rcases List.mem_cons.mp hx with rfl | hx'
    · exact le_trans (le_max_right a x) (init_le_foldl_max ys (max a x))
    · exact ih (max a y) x hx'

/-- `listMin` is a lower bound of the list's members. -/
lemma listMin_le_mem (l : List ℚ) : ∀ x ∈ l, listMin l ≤ x := by
  cases l with
  | nil => intro x hx; cases hx
  | cons y ys =>
    intro x hx
    rcases List.mem_cons.mp hx with rfl | hx'
    · exact foldl_min_le_init ys x
    · exact foldl_min_le_mem ys y x hx'

/-- `listMax` is an upper bound of the list's members. -/
lemma mem_le_listMax (l : List ℚ) : ∀ x ∈ l, x ≤ listMax l := by
  cases l with
  | nil => intro x hx; cases hx
  | cons y ys =>
    intro x hx
    rcases List.mem_cons.mp hx with rfl | hx'
    · exact init_le_foldl_max ys x
    · exact mem_le_foldl_max ys y x hx'

/-- Mean of a nonempty list of samples lies between its minimum and its
maximum. -/
lemma listMin_le_mean_le_listMax (l : List ℚ) (hne : l ≠ []) :
    listMin l ≤ l.sum / (l.length : ℚ) ∧ l.sum / (l.length : ℚ) ≤ listMax l := by
  have hlen : (0 : ℚ) < (l.length : ℚ) := by
    exact_mod_cast List.length_pos.mpr hne
  constructor
  · rw [le_div_iff₀ hlen]
    have h := List.card_nsmul_le_sum l (listMin l) (listMin_le_mem l)
    rw [nsmul_eq_mul] at h
    linarith
  · rw [div_le_iff₀ hlen]
    have h := List.sum_le_card_nsmul l (listMax l) (mem_le_listMax l)
    rw [nsmul_eq_mul] at h
    linarith

/-- Nearest-rank percentile index into a nonempty sorted sample list is
within bounds for percentile ranks `1` through `99`. -/
lemma pctIndex_lt (n p : ℕ) (hn : 1 ≤ n) (hp1 : 1 ≤ p) (hp99 : p ≤ 99) :
    pctIndex n p < n := by
  rw [pctIndex]
  have h1 : (p * n + 99) / 100 < n + 1 := by
    rw [Nat.div_lt_iff_lt_mul (by norm_num)]
    have h2 : p * n ≤ 99 * n := Nat.mul_le_mul_right n hp99
    omega
  have h3 : 1 ≤ (p * n + 99) / 100 := by
    rw [Nat.le_div_iff_mul_le (by norm_num)]
    have h4 : 1 * 1 ≤ p * n := Nat.mul_le_mul hp1 hn
    omega
  omega

/-- Nearest-rank percentile index is monotone in the percentile rank. -/
lemma pctIndex_mono (n : ℕ) {p q : ℕ} (hpq : p ≤ q) :
    pctIndex n p ≤ pctIndex n q := by
  rw [pctIndex, pctIndex]
  exact Nat.sub_le_sub_right
    (Nat.div_le_div_right (Nat.add_le_add_right (Nat.mul_le_mul_right n hpq) 99)) 1

/-- C2: after inserting a dataset, `get_metadata` on its key-tuple
returns a record whose mean lies between the range's minimum and
maximum, and whose percentiles array has exactly 99 entries and is
non-decreasing. -/
theorem insert_metadata_statistics (c : Catalog) (keys : List String)
    (path : String) (r : Raster) (extra : List (String × String))
    (hk : keys.length = c.keyNames.length) (hne : r.samples ≠ []) :
    ∃ c' md, MetaStore.insert c keys path r extra = Except.ok c' ∧
      MetaStore.get_metadata c' keys = some md ∧
      md.range_min ≤ md.mean ∧ md.mean ≤ md.range_max ∧
      md.percentiles.length = 99 ∧ md.percentiles.Pairwise (· ≤ ·) := by
  refine ⟨_, compute_metadata r extra, by rw [MetaStore.insert, if_pos hk],
    ?_, ?_, ?_, ?_, ?_⟩
  · rw [MetaStore.get_metadata]
    rw [List.find?_cons_of_pos _ (by simp)]
    rfl
  · exact (listMin_le_mean_le_listMax r.samples hne).1
  · exact (listMin_le_mean_le_listMax r.samples hne).2
  · simp [compute_metadata]
  · have hn : 1 ≤ r.samples.length := List.length_pos.mpr hne
    have hs : (r.samples.insertionSort (· ≤ ·)).Sorted (· ≤ ·) :=
      List.sorted_insertionSort (· ≤ ·) r.samples
    have hslen : (r.samples.insertionSort (· ≤ ·)).length = r.samples.length :=
      List.length_insertionSort (· ≤ ·) r.samples
    rw [compute_metadata]
    rw [List.pairwise_iff_getElem]
    intro i j hi hj hij
    simp only [List.length_map, List.length_range] at hi hj
    rw [List.getElem_map, List.getElem_map, List.getElem_range, List.getElem_range]
    have hibd : pctIndex r.samples.length (i + 1)
        < (r.samples.insertionSort (· ≤ ·)).length := by
      rw [hslen]; exact pctIndex_lt _ _ hn (by omega) (by omega)
    have hjbd : pctIndex r.samples.length (j + 1)
        < (r.samples.insertionSort (· ≤ ·)).length := by
      rw [hslen]; exact pctIndex_lt _ _ hn (by omega) (by omega)
    rw [List.getD_eq_getElem _ _ hibd, List.getD_eq_getElem _ _ hjbd]
    have hmono : pctIndex r.samples.length (i + 1) ≤
        pctIndex r.samples.length (j + 1) := pctIndex_mono _ (by omega)
    have := hs.rel_get_of_le (a := ⟨_, hibd⟩) (b := ⟨_, hjbd⟩) hmono
    simpa using this

/-- Rounding up to a full number of pages covers the whole list:
`len ≤ ⌈len / L⌉ * L`. -/
lemma ceil_mul_ge (len L : ℕ) (hL : 1 ≤ L) : len ≤ ((len + L - 1) / L) * L := by
  have hmod := Nat.div_add_mod (len + L - 1) L
  have hlt : (len + L - 1) % L < L := Nat.mod_lt _ (by omega)
  rw [Nat.mul_comm]
  generalize hm : L * ((len + L - 1) / L) = m at hmod ⊢
  omega

/-- Taking `m + n` elements splits as taking `m` and then `n` more. -/
lemma take_add_split (l : List α) (m n : ℕ) :
    l.take (m + n) = l.take m ++ (l.drop m).take n := by
  induction l generalizing m with
  | nil => simp
  | cons x xs ih =>
    cases m with
    | zero => simp
    | succ m' =>
      simp only [Nat.succ_add, List.take_succ_cons, List.drop_succ_cons,
        List.cons_append, List.cons.injEq, true_and]
      exact ih m'

/-- Concatenating the first `k` pages of size `L` yields the first
`k * L` elements. -/
lemma chunks_flatten_take (l : List α) (L : ℕ) :
    ∀ k, ((List.range k).map (fun p => (l.drop (p * L)).take L)).flatten
      = l.take (k * L) := by
  intro k
  induction k with
  | zero => simp
  | succ k ih =>
    rw [List.range_succ, List.map_append, List.flatten_append, ih]
    simp only [List.map_cons, List.map_nil, List.flatten_cons, List.flatten_nil,
      List.append_nil]
    rw [Nat.succ_mul, take_add_split]

/-- Concatenating all `⌈len / L⌉` pages of size `L ≥ 1` yields the whole
list. -/
lemma chunks_flatten_all (l : List α) (L : ℕ) (hL : 1 ≤ L) :
    ((List.range ((l.length + L - 1) / L)).map
        (fun p => (l.drop (p * L)).take L)).flatten = l := by
  rw [chunks_flatten_take]
  exact List.take_of_length_le (ceil_mul_ge l.length L hL)

/-- C3: for every limit `L ≥ 1`, page `p` of `get_datasets` is the
`p`-th size-`L` slice of the canonical (key-tuple-ordered) enumeration,
so concatenating pages `0` through `⌈N/L⌉ - 1` yields exactly the `N`
matching entries — no duplicates (given distinct key-tuples in the
catalog), no omissions, in canonical order. -/
theorem get_datasets_pagination (c : Catalog)
    (whereQ : List (String × List String)) (L : ℕ) (hL : 1 ≤ L)
    (full : List (List String × String))
    (h : MetaStore.get_datasets c whereQ 0 none = Except.ok full)
    (hnd : (c.entries.map (fun e => e.keyTuple)).Nodup) :
    (∀ p, MetaStore.get_datasets c whereQ p (some L)
        = Except.ok ((full.drop (p * L)).take L)) ∧
      ((List.range ((full.length + L - 1) / L)).map
          (fun p => (full.drop (p * L)).take L)).flatten = full ∧
      full.Nodup ∧ full.Pairwise (fun a b => a.1 ≤ b.1) := by
  have hg := get_datasets_ok_guard c whereQ 0 none full h
  rw [get_datasets_none_eq c whereQ 0 hg] at h
  obtain rfl : _ = full := Except.ok.inj h
  refine ⟨?_, chunks_flatten_all _ L hL, ?_, ?_⟩
  · intro p
    rw [get_datasets_some_eq c whereQ p L hg]
    simp
  · have hfiltered : ((c.entries.filter
        (fun e => MetaStore.satisfiesWhere c e.keyTuple whereQ)).map
          (fun e => e.keyTuple)).Nodup :=
      hnd.sublist (List.Sublist.map _ (List.filter_sublist c.entries))
    have hperm : List.Perm (MetaStore.sortedEntries c whereQ)
        (c.entries.filter (fun e => MetaStore.satisfiesWhere c e.keyTuple whereQ)) :=
      List.perm_insertionSort MetaStore.keyTupleLE _
    have hsortednd := (hperm.map (fun e => e.keyTuple)).symm.nodup hfiltered
    have hfst : (List.map Prod.fst
        ((MetaStore.sortedEntries c whereQ).map
          (fun e => (e.keyTuple, e.locator)))).Nodup := by
      rw [List.map_map]
      exact hsortednd
    exact hfst.of_map _
  · have hs : (MetaStore.sortedEntries c whereQ).Pairwise MetaStore.keyTupleLE :=
      List.sorted_insertionSort MetaStore.keyTupleLE _
    rw [List.pairwise_map]
    exact hs.imp (fun hab => hab)

/-- Witness for C2 at a concrete catalog and raster. -/
theorem insert_metadata_statistics_witness :
    (["A"] : List String).length
        = (⟨["sensor"], [], []⟩ : Catalog).keyNames.length ∧
      (⟨[1, 2], (0, 0, 1, 1)⟩ : Raster).samples ≠ [] ∧
      ∃ c' md, MetaStore.insert ⟨["sensor"], [], []⟩ ["A"] "pa"
          ⟨[1, 2], (0, 0, 1, 1)⟩ [] = Except.ok c' ∧
        MetaStore.get_metadata c' ["A"] = some md ∧
        md.range_min ≤ md.mean ∧ md.mean ≤ md.range_max ∧
        md.percentiles.length = 99 ∧ md.percentiles.Pairwise (· ≤ ·) :=
  ⟨rfl, by decide,
    insert_metadata_statistics ⟨["sensor"], [], []⟩ ["A"] "pa"
      ⟨[1, 2], (0, 0, 1, 1)⟩ [] rfl (by decide)⟩

/-- Witness for C3 at a concrete catalog and limit. -/
theorem get_datasets_pagination_witness :
    (1 : ℕ) ≤ 1 ∧
      MetaStore.get_datasets
          ⟨["sensor"], [],
            [⟨["A"], "pa", compute_metadata ⟨[1], (0, 0, 1, 1)⟩ []⟩]⟩ [] 0 none
        = Except.ok [(["A"], "pa")] ∧
      ((⟨["sensor"], [],
          [⟨["A"], "pa", compute_metadata ⟨[1], (0, 0, 1, 1)⟩ []⟩]⟩ :
            Catalog).entries.map (fun e => e.keyTuple)).Nodup ∧
      ((∀ p, MetaStore.get_datasets
          ⟨["sensor"], [],
            [⟨["A"], "pa", compute_metadata ⟨[1], (0, 0, 1, 1)⟩ []⟩]⟩ []
            p (some 1)
          = Except.ok (([((["A"] : List String), "pa")].drop (p * 1)).take 1)) ∧
        ((List.range (([((["A"] : List String), "pa")].length + 1 - 1) / 1)).map
            (fun p => (([((["A"] : List String), "pa")].drop (p * 1)).take 1))).flatten
          = [((["A"] : List String), "pa")] ∧
        ([((["A"] : List String), "pa")]).Nodup ∧
        ([((["A"] : List String), "pa")]).Pairwise (fun a b => a.1 ≤ b.1)) :=
  ⟨le_refl 1, rfl, by decide,
    get_datasets_pagination
      ⟨["sensor"], [], [⟨["A"], "pa", compute_metadata ⟨[1], (0, 0, 1, 1)⟩ []⟩]⟩
      [] 1 (le_refl 1) [(["A"], "pa")] rfl (by decide)⟩

/-- Witness for C4 at a concrete catalog, key-tuple and raster. -/
theorem insert_delete_roundtrip_witness :
    (["A"] : List String).length
        = (⟨["sensor"], [], []⟩ : Catalog).keyNames.length ∧
      ∃ c', MetaStore.insert ⟨["sensor"], [], []⟩ ["A"] "pa"
          ⟨[1], (0, 0, 1, 1)⟩ [] = Except.ok c' ∧
        MetaStore.get_metadata (MetaStore.delete c' ["A"]) ["A"] = none ∧
        ∃ res, MetaStore.get_datasets (MetaStore.delete c' ["A"]) [] 0 none
            = Except.ok res ∧
          ∀ loc, (["A"], loc) ∉ res :=
  ⟨rfl,
    insert_delete_roundtrip ⟨["sensor"], [], []⟩ ["A"] "pa"
      ⟨[1], (0, 0, 1, 1)⟩ [] rfl⟩

/-- Witness for C5 at concrete key-name sequences. -/
theorem create_reserved_keys_contract_witness :
    ((∃ k ∈ (["limit"] : List String), k ∈ _RESERVED_KEYS) ∧
      MetaStore.create ["limit"] [] = Except.error TcError.invalidKeyError) ∧
    ((∀ k ∈ (["sensor", "date"] : List String), k ∉ _RESERVED_KEYS) ∧
      (["sensor", "date"] : List String).Nodup ∧
      (∀ k ∈ (["sensor", "date"] : List String), k ≠ "") ∧
      ∃ c, MetaStore.create ["sensor", "date"] [("sensor", "the sensor")]
          = Except.ok c ∧
        MetaStore.get_keys c = [("sensor", "the sensor"), ("date", "")]) := by
  refine ⟨⟨by decide,
    create_reserved_keys_contract.1 ["limit"] [] (by decide)⟩,
    by decide, by decide, by decide, ?_⟩
  obtain ⟨c, hc, hk⟩ := create_reserved_keys_contract.2 ["sensor", "date"]
    [("sensor", "the sensor")] (by decide) (by decide) (by decide)
  refine ⟨c, hc, ?_⟩
  rw [hk]
  rfl

/-- Witness for C7 at a concrete store and tile sizes. -/
theorem get_raster_tile_size_contract_witness :
    (([3] : List ℕ).length ≠ 2 ∧
      awaitTile (RasterStore.get_raster_tile
          (fun _ => ⟨[[some 1]], (0, 0, 1, 1)⟩) "p" none [3] false false)
        = Except.error TcError.invalidTileSizeError) ∧
    (([2, 2] : List ℕ).length = 2 ∧
      ∃ arr, awaitTile (RasterStore.get_raster_tile
          (fun _ => ⟨[[some 1]], (0, 0, 1, 1)⟩) "p" none [2, 2] false true)
        = Except.ok arr ∧
        arr.rows.length = ([2, 2] : List ℕ).getD 0 0 ∧
        ∀ row ∈ arr.rows, row.length = ([2, 2] : List ℕ).getD 1 0) :=
  ⟨⟨by decide,
    (get_raster_tile_size_contract (fun _ => ⟨[[some 1]], (0, 0, 1, 1)⟩)
      "p" none [3] false false).1 (by decide)⟩,
   ⟨rfl,
    (get_raster_tile_size_contract (fun _ => ⟨[[some 1]], (0, 0, 1, 1)⟩)
      "p" none [2, 2] false true).2 rfl⟩⟩

/-- Witness for C8 at a concrete catalog and filter. -/
theorem get_datasets_where_semantics_witness :
    MetaStore.get_datasets
        ⟨["sensor"], [],
          [⟨["A"], "pa", compute_metadata ⟨[1], (0, 0, 1, 1)⟩ []⟩]⟩
        [("sensor", ["A", "B"])] 0 none = Except.ok [(["A"], "pa")] ∧
      ((["A"], "pa") ∈ [((["A"] : List String), "pa")] ↔
        ∃ e ∈ (⟨["sensor"], [],
            [⟨["A"], "pa", compute_metadata ⟨[1], (0, 0, 1, 1)⟩ []⟩]⟩ :
              Catalog).entries,
          e.keyTuple = ["A"] ∧ e.locator = "pa" ∧
          ∀ q ∈ [(("sensor" : String), ["A", "B"])],
            ∃ v, MetaStore.entryValue
                ⟨["sensor"], [],
                  [⟨["A"], "pa", compute_metadata ⟨[1], (0, 0, 1, 1)⟩ []⟩]⟩
                ["A"] q.1 = some v ∧ v ∈ q.2) :=
  ⟨rfl,
    get_datasets_where_semantics
      ⟨["sensor"], [], [⟨["A"], "pa", compute_metadata ⟨[1], (0, 0, 1, 1)⟩ []⟩]⟩
      [("sensor", ["A", "B"])] [(["A"], "pa")] rfl ["A"] "pa"⟩

end Terracotta
